import Mathlib

/-!
Shallow embedding of the TalentTrack skill matcher (server source:
`extractSkillsFromText`, `calculateMatchScore`, the recommendation
ranking inside `GET /api/job-recommendations`).

Strings are modelled as lists of characters (`Str`); JavaScript's
`toLowerCase`/`includes` are modelled character-wise (the vocabulary and
all skill data in the program are ASCII).  JavaScript numbers are
modelled as rationals (`ℚ`): every score the program computes is a ratio
of two small natural numbers, and the comparisons the code performs
(`> 0.1`, comparator sign) agree with exact rational arithmetic on such
values.
-/

/-- A JavaScript string, as its list of characters. -/
abbrev Str := List Char

/-- `s.toLowerCase()` — character-wise ASCII lower-casing. -/
def lowerStr (s : Str) : Str := s.map Char.toLower

/-- Helper for `strIncludes`: does `need` occur at the very start of `hay`? -/
def headMatch : Str → Str → Bool
  | [], _ => true
  | _ :: _, [] => false
  | a :: as, b :: bs => a == b && headMatch as bs

/-- `hay.includes(need)` — JavaScript substring containment
(`strIncludes need hay`). -/
def strIncludes (need : Str) : Str → Bool
  | [] => need.isEmpty
  | c :: rest => headMatch need (c :: rest) || strIncludes need rest

/-- The fixed skill vocabulary `commonSkills` from `extractSkillsFromText`,
in source order. -/
def commonSkills : List Str :=
  ["JavaScript".toList, "Python".toList, "Java".toList, "React".toList,
   "Node.js".toList, "MongoDB".toList, "SQL".toList,
   "AWS".toList, "Docker".toList, "Kubernetes".toList, "Git".toList,
   "HTML".toList, "CSS".toList, "TypeScript".toList,
   "Angular".toList, "Vue.js".toList, "Express".toList, "Django".toList,
   "Flask".toList, "Spring Boot".toList,
   "PostgreSQL".toList, "MySQL".toList, "Redis".toList, "GraphQL".toList,
   "REST API".toList, "Machine Learning".toList,
   "Data Science".toList, "DevOps".toList, "CI/CD".toList, "Agile".toList,
   "Scrum".toList, "Project Management".toList]

/-- `extractSkillsFromText(text)`:
`commonSkills.filter(skill => text.toLowerCase().includes(skill.toLowerCase()))`. -/
def extractSkillsFromText (text : Str) : List Str :=
  commonSkills.filter (fun skill => strIncludes (lowerStr skill) (lowerStr text))

/-- `calculateMatchScore(userSkills, jobSkills)`:
returns 0 when either list is empty, otherwise
`matchingSkills.length / Math.max(userSkills.length, jobSkills.length)`
where `matchingSkills` are the lower-cased user skills that occur in the
lower-cased job skills (`Array.includes` = list membership). -/
def calculateMatchScore (userSkills jobSkills : List Str) : ℚ :=
  if userSkills.length = 0 ∨ jobSkills.length = 0 then 0
  else
    let userSkillsLower := userSkills.map lowerStr
    let jobSkillsLower := jobSkills.map lowerStr
    let matchingSkills := userSkillsLower.filter (fun s => jobSkillsLower.contains s)
    (matchingSkills.length : ℚ) / ((Nat.max userSkills.length jobSkills.length : ℕ) : ℚ)

/-- `Math.round(q)` — round to nearest integer, halves toward +∞. -/
def jsRound (q : ℚ) : ℤ := ⌊q + 1/2⌋

/-- A stored job posting (the fields of the `Job` mongoose schema that the
recommendation route copies through `job.toObject()`). -/
structure Job where
  title : Str
  company : Str
  location : Str
  salary : Str
  type : Str
  description : Str
  requirements : Str
  companyWebsite : Str
  skills : List Str
  postedBy : Str
deriving DecidableEq, Repr

/-- One element of the `recommendations` array: the job's fields spread
unchanged, plus `matchScore` and `matchPercentage`. -/
structure Recommendation where
  job : Job
  matchScore : ℚ
  matchPercentage : ℤ
deriving DecidableEq, Repr

/-- `allJobs.map(job => ({...job.toObject(), matchScore, matchPercentage}))`. -/
def recommendationsFor (userSkills : List Str) (jobs : List Job) : List Recommendation :=
  jobs.map (fun job =>
    let matchScore := calculateMatchScore userSkills job.skills
    { job := job, matchScore := matchScore,
      matchPercentage := jsRound (matchScore * 100) })

/-- Stable insertion step for the descending sort: `x` (later in the
original order) is placed after every element whose score is ≥ its own. -/
def insertDesc (x : Recommendation) : List Recommendation → List Recommendation
  | [] => [x]
  | y :: ys => if y.matchScore ≤ x.matchScore then x :: y :: ys else y :: insertDesc x ys

/-- `.sort((a, b) => b.matchScore - a.matchScore)` — JavaScript's sort is
stable, so its result is the unique descending-by-score reordering that keeps
tied elements in their original relative order; this insertion sort computes
exactly that list.

Stability: `sortByScoreDesc (x :: xs)` inserts `x` before the first element of
the sorted tail whose score is ≤ `x`'s, so among equal scores the earlier
element of the input stays first. -/
def sortByScoreDesc : List Recommendation → List Recommendation
  | [] => []
  | x :: xs => insertDesc x (sortByScoreDesc xs)

/-- `recommendations.filter(job => job.matchScore > 0.1)
  .sort((a, b) => b.matchScore - a.matchScore).slice(0, 10)`. -/
def topRecommendations (recs : List Recommendation) : List Recommendation :=
  (sortByScoreDesc (recs.filter (fun r => decide ((1 : ℚ)/10 < r.matchScore)))).take 10

/-- The stored `profile.parsedResume` object; its `skills` field may be
absent (`none`), which the route replaces by `[]` via `|| []`. -/
structure ParsedResume where
  skills : Option (List Str)
deriving DecidableEq, Repr

/-- The JSON body of a successful `GET /api/job-recommendations` response. -/
structure RecResponse where
  success : Bool
  recommendations : List Recommendation
  message : Option Str
  userSkills : Option (List Str)
deriving DecidableEq, Repr

/-- The handler of `GET /api/job-recommendations` after the user record is
fetched: if `user.profile.parsedResume` is absent it answers
`{success: true, recommendations: [], message: 'No resume uploaded yet'}`;
otherwise it scores all jobs and answers the top recommendations together
with the user's skills. -/
def jobRecommendationsEndpoint (parsedResume : Option ParsedResume)
    (jobs : List Job) : RecResponse :=
  match parsedResume with
  | none =>
      { success := true, recommendations := [],
        message := some "No resume uploaded yet".toList, userSkills := none }
  | some pr =>
      let userSkills := pr.skills.getD []
      let recommendations := recommendationsFor userSkills jobs
      { success := true, recommendations := topRecommendations recommendations,
        message := none, userSkills := some userSkills }

/-- Score formula written from the specification's words (section 4.2:
score = |intersection| / max(|candidateSkills|, |jobSkills|), sets compared
after case folding, 0 when either set is empty), kept separate from
`calculateMatchScore`, which is translated from the source, so that the two
can be compared. -/
def specScore (candidateSkills jobSkills : List Str) : ℚ :=
  if candidateSkills.length = 0 ∨ jobSkills.length = 0 then 0
  else
    (((candidateSkills.map lowerStr).toFinset ∩ (jobSkills.map lowerStr).toFinset).card : ℚ)
      / ((Nat.max candidateSkills.length jobSkills.length : ℕ) : ℚ)

/-- Concrete data used by witnesses: a candidate with one skill. -/
def demoSkills : List Str := ["React".toList]

/-- Concrete data used by witnesses: a job requiring exactly the demo
candidate's skill (field values mirror the seeded sample jobs). -/
def demoJob : Job :=
  { title := "Frontend Developer".toList, company := "TechCorp Inc.".toList,
    location := "Remote".toList, salary := "$80,000 - $120,000".toList,
    type := "Full Time".toList, description := "Build web applications.".toList,
    requirements := "Experience with React.".toList,
    companyWebsite := "techcorp.example".toList, skills := ["React".toList],
    postedBy := "hr@techcorp.example".toList }

/-! ## Helper lemmas -/

lemma mem_of_headMatch {need hay : Str} (h : headMatch need hay = true) :
    ∀ c ∈ need, c ∈ hay := by
  induction need generalizing hay with
  | nil => intro c hc; cases hc
  | cons a as ih =>
    cases hay with
    | nil => simp [headMatch] at h
    | cons b bs =>
      simp only [headMatch, Bool.and_eq_true, beq_iff_eq] at h
      obtain ⟨rfl, hm⟩ := h
      intro c hc
      rcases List.mem_cons.mp hc with rfl | hc
      · exact List.mem_cons_self c bs
      · exact List.mem_cons.mpr (Or.inr (ih hm c hc))

lemma mem_of_strIncludes {need hay : Str} (h : strIncludes need hay = true) :
    ∀ c ∈ need, c ∈ hay := by
  induction hay with
  | nil =>
    simp only [strIncludes, List.isEmpty_iff] at h
    subst h; intro c hc; cases hc
  | cons b bs ih =>
    simp only [strIncludes, Bool.or_eq_true] at h
    rcases h with h | h
    · exact mem_of_headMatch h
    · exact fun c hc => List.mem_cons.mpr (Or.inr (ih h c hc))

lemma toLower_eq_self_of_whitespace {c : Char} (h : c.isWhitespace = true) :
    Char.toLower c = c := by
  simp only [Char.isWhitespace, Bool.or_eq_true, decide_eq_true_eq] at h
  obtain ((rfl | rfl) | rfl) | rfl := h <;> decide

lemma extract_of_whitespace {text : Str} (h : ∀ c ∈ text, c.isWhitespace = true) :
    extractSkillsFromText text = [] := by
  unfold extractSkillsFromText
  rw [List.filter_eq_nil_iff]
  intro s hs habs
  have hex : ∃ c ∈ lowerStr s, ¬c.isWhitespace = true := by
    have hall : commonSkills.all
        (fun s => (lowerStr s).any (fun c => !c.isWhitespace)) = true := by decide
    have := List.all_eq_true.mp hall s hs
    simpa using this
  obtain ⟨c, hc, hcws⟩ := hex
  have hmem : c ∈ lowerStr text := mem_of_strIncludes habs c hc
  obtain ⟨c', hc', rfl⟩ := List.mem_map.mp hmem
  rw [toLower_eq_self_of_whitespace (h c' hc')] at hcws
  exact hcws (h c' hc')

lemma calculateMatchScore_eval (A B : List Str) (k m : ℕ)
    (h : ¬(A.length = 0 ∨ B.length = 0))
    (hk : ((A.map lowerStr).filter (fun s => (B.map lowerStr).contains s)).length = k)
    (hm : Nat.max A.length B.length = m) :
    calculateMatchScore A B = (k : ℚ) / (m : ℚ) := by
  simp only [calculateMatchScore, if_neg h, hk, hm]

lemma specScore_eval (A B : List Str) (k m : ℕ)
    (h : ¬(A.length = 0 ∨ B.length = 0))
    (hk : ((A.map lowerStr).toFinset ∩ (B.map lowerStr).toFinset).card = k)
    (hm : Nat.max A.length B.length = m) :
    specScore A B = (k : ℚ) / (m : ℚ) := by
  simp only [specScore, if_neg h, hk, hm]

lemma length_filter_eq_card_inter (u j : List Str) (hu : u.Nodup) :
    (u.filter (fun s => j.contains s)).length = (u.toFinset ∩ j.toFinset).card := by
  have h1 : (u.filter (fun s => j.contains s)).toFinset = u.toFinset ∩ j.toFinset := by
    ext x
    simp [List.mem_filter]
  rw [← h1, List.toFinset_card_of_nodup (hu.filter _)]

lemma calculateMatchScore_eq_specScore (A B : List Str)
    (hA : (A.map lowerStr).Nodup) :
    calculateMatchScore A B = specScore A B := by
  by_cases h : A.length = 0 ∨ B.length = 0
  · simp only [calculateMatchScore, specScore, if_pos h]
  · simp only [calculateMatchScore, specScore, if_neg h,
      length_filter_eq_card_inter (A.map lowerStr) (B.map lowerStr) hA]

lemma calculateMatchScore_nil_left (B : List Str) : calculateMatchScore [] B = 0 := by
  simp [calculateMatchScore]

lemma calculateMatchScore_nil_right (A : List Str) : calculateMatchScore A [] = 0 := by
  simp [calculateMatchScore]

lemma mem_insertDesc {x a : Recommendation} {l : List Recommendation} :
    a ∈ insertDesc x l ↔ a = x ∨ a ∈ l := by
  induction l with
  | nil => simp [insertDesc]
  | cons y ys ih =>
    simp only [insertDesc]
    split
    · simp [List.mem_cons]
    · simp only [List.mem_cons, ih]
      tauto

lemma pairwise_insertDesc {x : Recommendation} {l : List Recommendation}
    (h : l.Pairwise (fun a b => b.matchScore ≤ a.matchScore)) :
    (insertDesc x l).Pairwise (fun a b => b.matchScore ≤ a.matchScore) := by
  induction l with
  | nil => simp [insertDesc]
  | cons y ys ih =>
    rw [List.pairwise_cons] at h
    obtain ⟨hy, hys⟩ := h
    simp only [insertDesc]
    split
    · rename_i hle
      rw [List.pairwise_cons]
      refine ⟨?_, List.pairwise_cons.mpr ⟨hy, hys⟩⟩
      intro b hb
      rcases List.mem_cons.mp hb with rfl | hb
      · exact hle
      · exact le_trans (hy b hb) hle
    · rename_i hlt
      rw [List.pairwise_cons]
      refine ⟨?_, ih hys⟩
      intro b hb
      rcases mem_insertDesc.mp hb with rfl | hb
      · exact le_of_lt (lt_of_not_le hlt)
      · exact hy b hb

lemma pairwise_sortByScoreDesc (l : List Recommendation) :
    (sortByScoreDesc l).Pairwise (fun a b => b.matchScore ≤ a.matchScore) := by
  induction l with
  | nil => simp [sortByScoreDesc]
  | cons x xs ih => exact pairwise_insertDesc ih

lemma mem_sortByScoreDesc {a : Recommendation} {l : List Recommendation} :
    a ∈ sortByScoreDesc l ↔ a ∈ l := by
  induction l with
  | nil => simp [sortByScoreDesc]
  | cons x xs ih => simp [sortByScoreDesc, mem_insertDesc, ih]

lemma mem_recommendationsFor_of_mem_top {userSkills : List Str} {jobs : List Job}
    {r : Recommendation}
    (hr : r ∈ topRecommendations (recommendationsFor userSkills jobs)) :
    r ∈ recommendationsFor userSkills jobs := by
  have h1 := mem_sortByScoreDesc.mp (List.mem_of_mem_take hr)
  exact (List.mem_filter.mp h1).1

lemma demo_score : calculateMatchScore demoSkills demoJob.skills = 1 := by
  rw [calculateMatchScore_eval _ _ 1 1 (by decide) (by decide) (by decide)]
  norm_num

lemma demo_round : jsRound ((1 : ℚ) * 100) = 100 := by
  unfold jsRound
  rw [show (1 : ℚ) * 100 + 1/2 = 100 + 1/2 by norm_num]
  rw [Int.floor_eq_iff]
  constructor <;> push_cast <;> norm_num

lemma demo_recs : recommendationsFor demoSkills [demoJob]
    = [{ job := demoJob, matchScore := 1, matchPercentage := 100 }] := by
  simp only [recommendationsFor, List.map_cons, List.map_nil, demo_score, demo_round]

lemma demo_top : topRecommendations (recommendationsFor demoSkills [demoJob])
    = [{ job := demoJob, matchScore := 1, matchPercentage := 100 }] := by
  rw [demo_recs]
  unfold topRecommendations
  have hfil : List.filter (fun r : Recommendation => decide ((1 : ℚ)/10 < r.matchScore))
      [{ job := demoJob, matchScore := 1, matchPercentage := 100 }]
      = [{ job := demoJob, matchScore := 1, matchPercentage := 100 }] := by
    rw [List.filter_eq_self]
    intro a ha
    rw [List.mem_singleton] at ha
    subst ha
    simp only [decide_eq_true_eq]
    norm_num
  rw [hfil]
  rfl

lemma matchScore_mem_recommendationsFor {u : List Str} {jobs : List Job}
    {r : Recommendation} (hr : r ∈ recommendationsFor u jobs) :
    r.matchScore = calculateMatchScore u r.job.skills
    ∧ r.matchPercentage = jsRound (r.matchScore * 100) ∧ r.job ∈ jobs := by
  obtain ⟨job, hjob, rfl⟩ := List.mem_map.mp hr
  exact ⟨rfl, rfl, hjob⟩

/-! ## Claim theorems -/

/-- C1: for every input text, `extractSkillsFromText` returns exactly those
vocabulary entries whose canonical string occurs as a case-insensitive
substring of the text (membership equivalence), in canonical capitalization
and the vocabulary's iteration order (the result is a sublist of
`commonSkills`), with no duplicates; empty or whitespace-only text yields
the empty result. -/
theorem C1_extractSkills_spec (text : Str) :
    (∀ s, s ∈ extractSkillsFromText text ↔
        s ∈ commonSkills ∧ strIncludes (lowerStr s) (lowerStr text) = true)
    ∧ List.Sublist (extractSkillsFromText text) commonSkills
    ∧ (extractSkillsFromText text).Nodup
    ∧ ((∀ c ∈ text, c.isWhitespace = true) → extractSkillsFromText text = []) := by
  refine ⟨fun s => ?_, ?_, ?_, extract_of_whitespace⟩
  · unfold extractSkillsFromText
    exact List.mem_filter
  · unfold extractSkillsFromText
    exact List.filter_sublist _
  · unfold extractSkillsFromText
    exact (List.filter_sublist _).nodup (by decide)

/-- C1 witness: the theorem applied to the whitespace-only text of a single
space character. -/
theorem C1_extractSkills_spec_witness : extractSkillsFromText [' '] = [] :=
  (C1_extractSkills_spec [' ']).2.2.2 (by decide)

/-- C2 counterexample: with the candidate list containing the same skill in
two capitalizations, the score the code computes (1) differs from the
spec formula |intersection| / max (which gives 1/2). -/
theorem C2_score_formula_counterexample :
    calculateMatchScore ["Java".toList, "JAVA".toList] ["java".toList]
      ≠ specScore ["Java".toList, "JAVA".toList] ["java".toList] := by
  rw [calculateMatchScore_eval _ _ 2 2 (by decide) (by decide) (by decide),
    specScore_eval _ _ 1 2 (by decide) (by decide) (by decide)]
  norm_num

/-- C2 (amended): when the candidate list contains no two entries equal up
to case, the computed score equals |case-insensitive intersection| /
max(|A|, |B|); and the score with an empty input on either side is 0
(defined, not an error). -/
theorem C2_score_formula (A B : List Str) (hA : (A.map lowerStr).Nodup) :
    calculateMatchScore A B = specScore A B
    ∧ calculateMatchScore [] B = 0 ∧ calculateMatchScore A [] = 0 :=
  ⟨calculateMatchScore_eq_specScore A B hA,
    calculateMatchScore_nil_left B, calculateMatchScore_nil_right A⟩

/-- C2 witness: concrete evaluation at the spec's own example,
["React","Git"] versus ["git","node"]. -/
theorem C2_score_formula_witness :
    (["React".toList, "Git".toList].map lowerStr).Nodup
    ∧ calculateMatchScore ["React".toList, "Git".toList]
        ["git".toList, "node".toList]
      = specScore ["React".toList, "Git".toList] ["git".toList, "node".toList] :=
  ⟨by decide, (C2_score_formula ["React".toList, "Git".toList]
      ["git".toList, "node".toList] (by decide)).1⟩

/-- C3: the ranked output of `topRecommendations` has length at most 10,
non-increasing scores, and no entry with score ≤ 0.1. -/
theorem C3_topRecommendations_shape (recs : List Recommendation) :
    (topRecommendations recs).length ≤ 10
    ∧ (topRecommendations recs).Pairwise (fun a b => b.matchScore ≤ a.matchScore)
    ∧ ∀ r ∈ topRecommendations recs, (1 : ℚ)/10 < r.matchScore := by
  refine ⟨List.length_take_le _ _, (pairwise_sortByScoreDesc _).take, ?_⟩
  intro r hr
  have h2 := List.mem_filter.mp (mem_sortByScoreDesc.mp (List.mem_of_mem_take hr))
  simpa using h2.2

/-- C3 witness: the threshold clause of the theorem at the demo scenario. -/
theorem C3_topRecommendations_shape_witness :
    (1 : ℚ)/10 < (Recommendation.mk demoJob 1 100).matchScore :=
  (C3_topRecommendations_shape (recommendationsFor demoSkills [demoJob])).2.2
    (Recommendation.mk demoJob 1 100)
    (by rw [demo_top]; exact List.mem_singleton.mpr rfl)

/-- C4 counterexample: score(["Python","PYTHON"], ["python","sql"]) is 1.0
although the two lists are not identical, not even as case-insensitive
sets: case-fold duplicates on the candidate side inflate the match count. -/
theorem C4_perfect_score_counterexample :
    calculateMatchScore ["Python".toList, "PYTHON".toList]
        ["python".toList, "sql".toList] = 1
    ∧ (["Python".toList, "PYTHON".toList].map lowerStr).toFinset
        ≠ (["python".toList, "sql".toList].map lowerStr).toFinset := by
  constructor
  · rw [calculateMatchScore_eval _ _ 2 2 (by decide) (by decide) (by decide)]
    norm_num
  · decide

/-- C4 (amended): every score lies in [0,1]; score(A,A) = 1 for non-empty A;
and when the candidate list has no two entries equal up to case, a score of
1.0 forces both lists non-empty and equal as case-insensitive sets. -/
theorem C4_score_range_and_identity (A B : List Str) :
    0 ≤ calculateMatchScore A B
    ∧ calculateMatchScore A B ≤ 1
    ∧ (A ≠ [] → calculateMatchScore A A = 1)
    ∧ ((A.map lowerStr).Nodup → calculateMatchScore A B = 1 →
        A ≠ [] ∧ B ≠ [] ∧ (A.map lowerStr).toFinset = (B.map lowerStr).toFinset) := by
  refine ⟨?_, ?_, ?_, ?_⟩
  · simp only [calculateMatchScore]
    split
    · exact le_refl 0
    · positivity
  · simp only [calculateMatchScore]
    split
    · norm_num
    · rename_i h
      push_neg at h
      have hpos : (0 : ℚ) < ((Nat.max A.length B.length : ℕ) : ℚ) := by
        exact_mod_cast lt_of_lt_of_le (Nat.pos_of_ne_zero h.1)
          (Nat.le_max_left A.length B.length)
      rw [div_le_one hpos]
      have hle : ((A.map lowerStr).filter
          (fun s => (B.map lowerStr).contains s)).length ≤ A.length := by
        calc _ ≤ (A.map lowerStr).length := List.length_filter_le _ _
        _ = A.length := List.length_map _ _
      exact_mod_cast le_trans hle (Nat.le_max_left _ _)
  · intro hAne
    have hlen : A.length ≠ 0 := by simpa [List.length_eq_zero] using hAne
    simp only [calculateMatchScore]
    rw [if_neg (by simp [hlen])]
    have hfil : (A.map lowerStr).filter
        (fun s => (A.map lowerStr).contains s) = A.map lowerStr :=
      List.filter_eq_self.mpr (fun a ha => by simpa using ha)
    rw [hfil, List.length_map]
    have hmx : Nat.max A.length A.length = A.length := Nat.max_self _
    rw [hmx]
    exact div_self (by exact_mod_cast hlen)
  · intro hnd h1
    have hcond : ¬(A.length = 0 ∨ B.length = 0) := by
      intro hc
      simp only [calculateMatchScore] at h1
      rw [if_pos hc] at h1
      exact absurd h1 (by norm_num)
    have hA0 : A.length ≠ 0 := fun hc => hcond (Or.inl hc)
    have hB0 : B.length ≠ 0 := fun hc => hcond (Or.inr hc)
    have hAne : A ≠ [] := by simpa [← List.length_eq_zero] using hA0
    have hBne : B ≠ [] := by simpa [← List.length_eq_zero] using hB0
    refine ⟨hAne, hBne, ?_⟩
    have hmax0 : (0 : ℚ) < ((Nat.max A.length B.length : ℕ) : ℚ) := by
      exact_mod_cast lt_of_lt_of_le (Nat.pos_of_ne_zero hA0) (Nat.le_max_left _ _)
    have hk : (((A.map lowerStr).filter
          (fun s => (B.map lowerStr).contains s)).length : ℚ)
        = ((Nat.max A.length B.length : ℕ) : ℚ) := by
      simp only [calculateMatchScore] at h1
      rw [if_neg hcond] at h1
      exact (div_eq_one_iff_eq (ne_of_gt hmax0)).mp h1
    have hkNat : ((A.map lowerStr).filter
          (fun s => (B.map lowerStr).contains s)).length
        = Nat.max A.length B.length := by exact_mod_cast hk
    have hle : ((A.map lowerStr).filter
        (fun s => (B.map lowerStr).contains s)).length ≤ A.length := by
      calc _ ≤ (A.map lowerStr).length := List.length_filter_le _ _
      _ = A.length := List.length_map _ _
    have hmaxA : Nat.max A.length B.length = A.length :=
      le_antisymm (hkNat ▸ hle) (Nat.le_max_left _ _)
    have hall : ∀ s ∈ A.map lowerStr, (B.map lowerStr).contains s = true :=
      List.filter_length_eq_length.mp (by rw [hkNat, hmaxA, List.length_map])
    have hsub : (A.map lowerStr).toFinset ⊆ (B.map lowerStr).toFinset := by
      intro x hx
      rw [List.mem_toFinset] at hx ⊢
      simpa using hall x hx
    have hBle : B.length ≤ A.length := hmaxA ▸ Nat.le_max_right A.length B.length
    have hcard : (B.map lowerStr).toFinset.card ≤ (A.map lowerStr).toFinset.card := by
      calc (B.map lowerStr).toFinset.card ≤ (B.map lowerStr).length :=
            List.toFinset_card_le _
      _ = B.length := List.length_map _ _
      _ ≤ A.length := hBle
      _ = (A.map lowerStr).length := (List.length_map _ _).symm
      _ = (A.map lowerStr).toFinset.card := (List.toFinset_card_of_nodup hnd).symm
    exact Finset.eq_of_subset_of_card_le hsub hcard

/-- C4 witness: score(A,A) = 1 at A = ["AWS","Docker"], and the only-if
direction at the case-insensitively equal pair
(["AWS","Docker"], ["aws","docker"]). -/
theorem C4_score_range_and_identity_witness :
    calculateMatchScore ["AWS".toList, "Docker".toList]
        ["AWS".toList, "Docker".toList] = 1
    ∧ (["AWS".toList, "Docker".toList].map lowerStr).toFinset
        = (["aws".toList, "docker".toList].map lowerStr).toFinset := by
  constructor
  · exact (C4_score_range_and_identity ["AWS".toList, "Docker".toList]
      ["AWS".toList, "Docker".toList]).2.2.1 (by decide)
  · have h1 : calculateMatchScore ["AWS".toList, "Docker".toList]
        ["aws".toList, "docker".toList] = 1 := by
      rw [calculateMatchScore_eval _ _ 2 2 (by decide) (by decide) (by decide)]
      norm_num
    exact ((C4_score_range_and_identity ["AWS".toList, "Docker".toList]
      ["aws".toList, "docker".toList]).2.2.2 (by decide) h1).2.2

/-- C5 counterexample: with a case-fold duplicate on one side the scorer is
asymmetric: score(["Node.js","NODE.JS"], ["node.js"]) = 1 but
score(["node.js"], ["Node.js","NODE.JS"]) = 1/2. -/
theorem C5_symmetry_counterexample :
    calculateMatchScore ["Node.js".toList, "NODE.JS".toList] ["node.js".toList]
      ≠ calculateMatchScore ["node.js".toList]
          ["Node.js".toList, "NODE.JS".toList] := by
  rw [calculateMatchScore_eval _ _ 2 2 (by decide) (by decide) (by decide),
    calculateMatchScore_eval _ _ 1 2 (by decide) (by decide) (by decide)]
  norm_num

/-- C5 (amended): the scorer is symmetric whenever neither list contains two
entries equal up to case. -/
theorem C5_score_symmetric (A B : List Str)
    (hA : (A.map lowerStr).Nodup) (hB : (B.map lowerStr).Nodup) :
    calculateMatchScore A B = calculateMatchScore B A := by
  rw [calculateMatchScore_eq_specScore A B hA,
    calculateMatchScore_eq_specScore B A hB]
  unfold specScore
  by_cases h : A.length = 0 ∨ B.length = 0
  · rw [if_pos h, if_pos (Or.symm h)]
  · rw [if_neg h, if_neg (fun hc => h (Or.symm hc))]
    rw [Finset.inter_comm]
    have hmx : Nat.max A.length B.length = Nat.max B.length A.length :=
      Nat.max_comm _ _
    rw [hmx]

/-- C5 witness: symmetry at the spec's example pair. -/
theorem C5_score_symmetric_witness :
    (["React".toList, "Git".toList].map lowerStr).Nodup
    ∧ (["git".toList, "node".toList].map lowerStr).Nodup
    ∧ calculateMatchScore ["React".toList, "Git".toList]
        ["git".toList, "node".toList]
      = calculateMatchScore ["git".toList, "node".toList]
          ["React".toList, "Git".toList] :=
  ⟨by decide, by decide, C5_score_symmetric _ _ (by decide) (by decide)⟩

/-- C6: with no stored parsed resume the endpoint short-circuits: success
with an empty recommendation list and the explanatory message, the same
response whatever the stored jobs are (no job is scored). -/
theorem C6_no_resume_short_circuit (jobs : List Job) :
    jobRecommendationsEndpoint none jobs
      = { success := true, recommendations := [],
          message := some "No resume uploaded yet".toList,
          userSkills := none } := rfl

/-- C7: every entry of the ranker's output carries
matchPercentage = Math.round(matchScore * 100) next to its matchScore. -/
theorem C7_matchPercentage_rounded (userSkills : List Str) (jobs : List Job) :
    ∀ r ∈ topRecommendations (recommendationsFor userSkills jobs),
      r.matchPercentage = jsRound (r.matchScore * 100) := by
  intro r hr
  exact (matchScore_mem_recommendationsFor
    (mem_recommendationsFor_of_mem_top hr)).2.1

/-- C7 witness: the demo recommendation entry. -/
theorem C7_matchPercentage_rounded_witness :
    (Recommendation.mk demoJob 1 100).matchPercentage
      = jsRound ((Recommendation.mk demoJob 1 100).matchScore * 100) :=
  C7_matchPercentage_rounded demoSkills [demoJob] (Recommendation.mk demoJob 1 100)
    (by rw [demo_top]; exact List.mem_singleton.mpr rfl)

/-- C8: matching is plain substring containment with no word-boundary
check: the single word "JavaScript" extracts both "JavaScript" and "Java",
and the single word "PostgreSQL" extracts both "SQL" and "PostgreSQL"
(listed in vocabulary order). -/
theorem C8_substring_no_word_boundary :
    extractSkillsFromText "JavaScript".toList
      = ["JavaScript".toList, "Java".toList]
    ∧ extractSkillsFromText "PostgreSQL".toList
      = ["SQL".toList, "PostgreSQL".toList] :=
  ⟨by decide, by decide⟩

/-- C9: a stored parsed resume whose skills field is missing or empty does
not take the no-profile branch: every job scores 0 against the empty list,
the 0.1 threshold removes them all, and the response is success with an
empty recommendation list and no message. -/
theorem C9_empty_skills_scores_all_jobs (pr : ParsedResume) (jobs : List Job)
    (h : pr.skills = none ∨ pr.skills = some []) :
    jobRecommendationsEndpoint (some pr) jobs
      = { success := true, recommendations := [], message := none,
          userSkills := some [] } := by
  have hsk : pr.skills.getD [] = [] := by rcases h with h | h <;> simp [h]
  have hrec : topRecommendations (recommendationsFor [] jobs) = [] := by
    unfold topRecommendations
    have hfil : (recommendationsFor [] jobs).filter
        (fun r => decide ((1 : ℚ)/10 < r.matchScore)) = [] := by
      rw [List.filter_eq_nil_iff]
      intro r hr
      have hms := (matchScore_mem_recommendationsFor hr).1
      simp only [decide_eq_true_eq]
      rw [hms, calculateMatchScore_nil_left]
      norm_num
    rw [hfil]
    rfl
  unfold jobRecommendationsEndpoint
  simp only [hsk, hrec]

/-- C9 witness: the theorem at a resume with a missing skills field and one
stored job. -/
theorem C9_empty_skills_scores_all_jobs_witness :
    jobRecommendationsEndpoint (some { skills := none }) [demoJob]
      = { success := true, recommendations := [], message := none,
          userSkills := some [] } :=
  C9_empty_skills_scores_all_jobs { skills := none } [demoJob] (Or.inl rfl)

/-- C10: each output entry embeds one of the stored jobs with every field
unchanged (its `job` component is an input job verbatim) and exactly the
two computed fields matchScore and matchPercentage added; the ranker is a
pure function of the stored jobs and the candidate's skills, so it modifies
neither. -/
theorem C10_entries_preserve_jobs (userSkills : List Str) (jobs : List Job) :
    ∀ r ∈ topRecommendations (recommendationsFor userSkills jobs),
      r.job ∈ jobs
      ∧ r.matchScore = calculateMatchScore userSkills r.job.skills
      ∧ r.matchPercentage = jsRound (r.matchScore * 100) := by
  intro r hr
  have h := matchScore_mem_recommendationsFor (mem_recommendationsFor_of_mem_top hr)
  exact ⟨h.2.2, h.1, h.2.1⟩

/-- C10 witness: the demo entry's job component is the stored demo job. -/
theorem C10_entries_preserve_jobs_witness :
    (Recommendation.mk demoJob 1 100).job ∈ [demoJob] :=
  (C10_entries_preserve_jobs demoSkills [demoJob] (Recommendation.mk demoJob 1 100)
    (by rw [demo_top]; exact List.mem_singleton.mpr rfl)).1
